import Mathlib

/-!
Verification of the exam10gen repository against its specification.

The development shallowly embeds the parts of the code the claims speak
about:

* `src/services/fileService.ts` — the gap-marker scanner used by
  `getQuestionIncrement` (the JS regex `\(\d+\)` applied globally), the
  gap renumbering performed by `exportExamToDocx`, and the two numbering
  loops (exam body and answer key) of that export.
* `src/App.tsx` — the `handleFileUpload` control flow (API-key guard and
  empty-text guard before the analysis call).
* the settings provider (`SettingsProvider`) — persisted-model
  validation and the `hasKey` predicate.
* the LLM invocation pipeline (`geminiService.ts` is not part of the
  source tree; it is modelled from the specification, §4.1 and §7).

Strings are handled as `List Char` wherever scanning matters, matching
JS string iteration; `String` values from the data model are converted
with `String.data`.
-/

/-- A decimal digit character, as tested by the JS regex class `\d`. -/
def isDigitChar (c : Char) : Bool :=
  48 ≤ c.toNat && c.toNat ≤ 57

/-- A JS-style whitespace test covering the characters the claims involve
(space, newline, tab, carriage return). -/
def isWsChar (c : Char) : Bool :=
  c = ' ' || c = '\n' || c = '\t' || c = '\r'

/-- The opening brace character. -/
def lbraceChar : Char := Char.ofNat 123

/-- The closing brace character. -/
def rbraceChar : Char := Char.ofNat 125

/-- Split a character list into its maximal leading run of decimal digits
and the remainder, as the greedy `\d+` of the JS regex does. -/
def takeDigits : List Char → List Char × List Char
  | [] => ([], [])
  | c :: cs =>
    if isDigitChar c then
      let p := takeDigits cs
      (c :: p.1, p.2)
    else
      ([], c :: cs)

/-- Number of non-overlapping matches of the JS regex `\(\d+\)` found by a
global scan, as `content.match(/\(\d+\)/g)` computes in
`getQuestionIncrement` (`src/services/fileService.ts`): at an opening
paren the greedy digit run must be non-empty and be closed immediately;
on a match the scan resumes after the closing paren, otherwise it
advances one character. -/
def countGaps : List Char → Nat
  | [] => 0
  | c :: cs =>
    if c = '(' then
      let p := takeDigits cs
      if p.1 ≠ [] ∧ p.2.head? = some ')' then countGaps p.2.tail + 1
      else countGaps cs
    else countGaps cs
termination_by l => l.length
decreasing_by
  · have hlen : ∀ l : List Char, (takeDigits l).2.length ≤ l.length := by
      intro l
      induction l with
      | nil => simp [takeDigits]
      | cons a as iha =>
        by_cases ha : isDigitChar a = true
        · simp only [takeDigits, ha, if_true, List.length_cons]
          omega
        · simp [takeDigits, ha]
    have h1 := hlen cs
    have h2 : (takeDigits cs).2 ≠ [] := by
      intro hnil
      rename_i hc
      rw [hnil] at hc
      simp at hc
    have h3 : (takeDigits cs).2.tail.length < (takeDigits cs).2.length := by
      cases htl : (takeDigits cs).2 with
      | nil => exact absurd htl h2
      | cons a as => simp [htl]
    simp only [List.length_cons]
    omega
  · simp only [List.length_cons]; omega
  · simp only [List.length_cons]; omega

/-- Value of a run of decimal digit characters. -/
def digitsToNat (ds : List Char) : Nat :=
  ds.foldl (fun a c => 10 * a + (c.toNat - 48)) 0

/-- The numbers carried by the gap markers of a content string, in scan
order: the digits inside each match of `\(\d+\)`. -/
def gapNums : List Char → List Nat
  | [] => []
  | c :: cs =>
    if c = '(' then
      let p := takeDigits cs
      if p.1 ≠ [] ∧ p.2.head? = some ')' then
        digitsToNat p.1 :: gapNums p.2.tail
      else gapNums cs
    else gapNums cs
termination_by l => l.length
decreasing_by
  · have hlen : ∀ l : List Char, (takeDigits l).2.length ≤ l.length := by
      intro l
      induction l with
      | nil => simp [takeDigits]
      | cons a as iha =>
        by_cases ha : isDigitChar a = true
        · simp only [takeDigits, ha, if_true, List.length_cons]
          omega
        · simp [takeDigits, ha]
    have h1 := hlen cs
    have h2 : (takeDigits cs).2 ≠ [] := by
      intro hnil
      rename_i hc
      rw [hnil] at hc
      simp at hc
    have h3 : (takeDigits cs).2.tail.length < (takeDigits cs).2.length := by
      cases htl : (takeDigits cs).2 with
      | nil => exact absurd htl h2
      | cons a as => simp [htl]
    simp only [List.length_cons]
    omega
  · simp only [List.length_cons]; omega
  · simp only [List.length_cons]; omega

/-- Decimal rendering of a natural number, as the JS template literal
interpolation of a number renders it. -/
def natDigits (n : Nat) : List Char :=
  if h : n < 10 then [Char.ofNat (48 + n)]
  else natDigits (n / 10) ++ [Char.ofNat (48 + n % 10)]
termination_by n
decreasing_by
  have : 10 ≤ n := Nat.le_of_not_lt h
  omega

/-- The gap renumbering performed by `exportExamToDocx`
(`src/services/fileService.ts`): `content.replace(/\(\d+\)/g, ...)`
rewrites the i-th match, in scan order, to the literal parenthesized
rendering of `startNum + i`. -/
def renumberGaps (n : Nat) : List Char → List Char
  | [] => []
  | c :: cs =>
    if c = '(' then
      let p := takeDigits cs
      if p.1 ≠ [] ∧ p.2.head? = some ')' then
        '(' :: natDigits n ++ ')' :: renumberGaps (n + 1) p.2.tail
      else c :: renumberGaps n cs
    else c :: renumberGaps n cs
termination_by l => l.length
decreasing_by
  · have hlen : ∀ l : List Char, (takeDigits l).2.length ≤ l.length := by
      intro l
      induction l with
      | nil => simp [takeDigits]
      | cons a as iha =>
        by_cases ha : isDigitChar a = true
        · simp only [takeDigits, ha, if_true, List.length_cons]
          omega
        · simp [takeDigits, ha]
    have h1 := hlen cs
    have h2 : (takeDigits cs).2 ≠ [] := by
      intro hnil
      rename_i hc
      rw [hnil] at hc
      simp at hc
    have h3 : (takeDigits cs).2.tail.length < (takeDigits cs).2.length := by
      cases htl : (takeDigits cs).2 with
      | nil => exact absurd htl h2
      | cons a as => simp [htl]
    simp only [List.length_cons]
    omega
  · simp only [List.length_cons]; omega
  · simp only [List.length_cons]; omega

/-- The JS `String.prototype.trim`: drop leading and trailing whitespace. -/
def trimChars (s : List Char) : List Char :=
  ((s.dropWhile isWsChar).reverse.dropWhile isWsChar).reverse

/-- The `Question` record. Its declaration (`types.ts`) is not part of
the source tree; fields are modelled from the spec §3 and from their use
in `src/services/fileService.ts`. -/
structure Question where
  id : String
  partName : String
  type : String
  content : String
  options : Option (List String)
  correctAnswer : Option String
  questionCount : Option Nat
  level : Option String

/-- A `Section` of `ExamData`, modelled from the spec §3 and its use in
`src/services/fileService.ts`. -/
structure Section where
  title : String
  passageContent : Option String
  totalPoints : Int
  questions : List Question

/-- The `ExamData` record, modelled from the spec §3 and its use in
`src/services/fileService.ts`. -/
structure ExamData where
  title : String
  subtitle : String
  duration : Nat
  sections : List Section

/-- Number of gap markers `(digits)` in a question's content string. -/
def countGapMarkers (s : String) : Nat := countGaps s.data

/-- The fallback increment of `getQuestionIncrement` when `questionCount`
does not apply: a conversation-matching question counts its gap markers,
one if none are found; every other question counts one
(`src/services/fileService.ts`, lines 36-40). -/
def convIncrement (q : Question) : Nat :=
  if q.type = "conversation-matching" then
    let c := countGapMarkers q.content
    if c = 0 then 1 else c
  else 1

/-- The function `getQuestionIncrement` (`src/services/fileService.ts`, lines 34-41):
a truthy `questionCount` greater than one wins; otherwise the
conversation-matching fallback applies. -/
def getQuestionIncrement (q : Question) : Nat :=
  match q.questionCount with
  | some n => if 1 < n then n else convIncrement q
  | none => convIncrement q

/-- Start numbers that the exam-body loop of `exportExamToDocx`
(`src/services/fileService.ts`, lines 142-258) assigns within one
section: each question is printed at the running `questionNumber`, which
then grows by `getQuestionIncrement`; returns the labels in order and
the final counter. -/
def bodyNumberQuestions : Nat → List Question → List Nat × Nat
  | n, [] => ([], n)
  | n, q :: qs =>
    let r := bodyNumberQuestions (n + getQuestionIncrement q) qs
    (n :: r.1, r.2)

/-- The exam-body numbering across sections: the counter starts at 1 and
flows from one section into the next (`src/services/fileService.ts`,
lines 119-259). -/
def bodyNumberSections : Nat → List Section → List Nat
  | _, [] => []
  | n, s :: ss =>
    let r := bodyNumberQuestions n s.questions
    r.1 ++ bodyNumberSections r.2 ss

/-- Start numbers printed in the body, one per question in traversal
order. -/
def docxBodyStartNums (e : ExamData) : List Nat :=
  bodyNumberSections 1 e.sections

/-- Start numbers that the answer-key loop of `exportExamToDocx`
(`src/services/fileService.ts`, lines 291-309) assigns within one
section: each label row starts at the running `answerNumber`, which then
grows by `getQuestionIncrement`. -/
def answerNumberQuestions : Nat → List Question → List Nat × Nat
  | n, [] => ([], n)
  | n, q :: qs =>
    let r := answerNumberQuestions (n + getQuestionIncrement q) qs
    (n :: r.1, r.2)

/-- The answer-key numbering across sections: `answerNumber` starts at 1
and flows from one section into the next
(`src/services/fileService.ts`, lines 276-310). -/
def answerNumberSections : Nat → List Section → List Nat
  | _, [] => []
  | n, s :: ss =>
    let r := answerNumberQuestions n s.questions
    r.1 ++ answerNumberSections r.2 ss

/-- First numbers of the answer-key label rows, one per question in
traversal order. -/
def docxAnswerStartNums (e : ExamData) : List Nat :=
  answerNumberSections 1 e.sections

/-- The Gemini model enum. Its declaration (`types.ts`) is not part of
the source tree. Modelled from the spec: a small closed set of three
interchangeable model ids (§3, §6), displayed by `SettingsModal.tsx` as
Gemini 2.0 Flash, Gemini 2.0 Pro and Gemini 1.5 Flash. -/
inductive GeminiModel
  | ambitiousFlash
  | pro
  | flashLegacy
deriving DecidableEq

/-- Modelled from the spec: the persisted string value of each model id
(the enum values live in the missing `types.ts`); the claims depend only
on the values being distinct non-empty strings. -/
def modelId : GeminiModel → String
  | .ambitiousFlash => "gemini-2.0-flash"
  | .pro => "gemini-2.0-pro-exp-02-05"
  | .flashLegacy => "gemini-1.5-flash"

/-- The known model-id set, `Object.values(GeminiModel)` in
`src/unnamed/part_001`. -/
def knownModelIds : List String :=
  [modelId .ambitiousFlash, modelId .pro, modelId .flashLegacy]

/-- Startup model selection of `SettingsProvider`
(`src/unnamed/part_001`, lines 24-42): a truthy stored value is kept
only when it is one of the known enum values; otherwise the Flash
default is selected. -/
def loadStoredModel (storedModel : Option String) : String :=
  match storedModel with
  | some s =>
    if s ≠ "" ∧ s ∈ knownModelIds then s else modelId .ambitiousFlash
  | none => modelId .ambitiousFlash

/-- The `hasKey` flag of `SettingsProvider` (`src/unnamed/part_001`,
line 61): `!!apiKey && apiKey.length > 10`. -/
def hasKeyOf (apiKey : String) : Bool :=
  !apiKey.isEmpty && decide (10 < apiKey.length)

/-- Outwardly visible actions of the upload handler. -/
inductive UploadAction
  | openSettings
  | setError (msg : String)
  | extractText
  | callAnalyze (text : String)
deriving DecidableEq

/-- Control flow of `handleFileUpload` (`src/App.tsx`, lines 35-77), as
the ordered list of outwardly visible actions, parameterized by the
`hasKey` guard and the text the chosen extractor would yield: without a
key the handler opens settings and reports an error before extracting;
with a key it extracts and either rejects empty or whitespace-only text
(the thrown message lands in the catch clause) or calls
`analyzeExamFile` on the text. -/
def handleFileUpload (hasKey : Bool) (extractedText : String) :
    List UploadAction :=
  if !hasKey then
    [.openSettings, .setError "Vui lòng nhập API Key trước khi sử dụng."]
  else if extractedText.isEmpty || (trimChars extractedText.data).isEmpty then
    [.extractText, .setError "Không tìm thấy nội dung văn bản trong file."]
  else
    [.extractText, .callAnalyze extractedText]

/-- Whether `pat` is a leading run of `s` (JS `String.prototype.startsWith`). -/
def beginsWith : List Char → List Char → Bool
  | [], _ => true
  | _ :: _, [] => false
  | p :: ps, c :: cs => p = c && beginsWith ps cs

/-- Whether `pat` occurs contiguously inside `s`
(JS `String.prototype.includes`). -/
def containsSub (pat : List Char) : List Char → Bool
  | [] => pat.isEmpty
  | c :: cs => beginsWith pat (c :: cs) || containsSub pat cs

/-- Modelled from the spec: the JSON documents the backend contract
deals in (§4.1, §6); `geminiService.ts` is not part of the source tree.
Strings are character lists and numbers integers, which covers the
payloads the claims exercise. -/
inductive Json
  | null
  | bool (b : Bool)
  | num (n : Int)
  | str (s : List Char)
  | arr (elems : List Json)
  | obj (fields : List (List Char × Json))

/-- Drop leading JS whitespace. -/
def skipWs (s : List Char) : List Char := s.dropWhile isWsChar

/-- Body of a JSON string literal, read up to the closing quote (escape
sequences are not needed by the contract payloads the claims use). -/
def parseStringBody : List Char → List Char → Option (List Char × List Char)
  | [], _ => none
  | c :: cs, acc =>
    if c = '"' then some (acc.reverse, cs) else parseStringBody cs (c :: acc)

/-- A JSON integer, optionally signed. -/
def parseNumberToken (s : List Char) : Option (Json × List Char) :=
  match s with
  | '-' :: rest =>
    match takeDigits rest with
    | ([], _) => none
    | (d :: ds, r) => some (.num (-(digitsToNat (d :: ds) : Int)), r)
  | _ =>
    match takeDigits s with
    | ([], _) => none
    | (d :: ds, r) => some (.num (digitsToNat (d :: ds) : Int), r)

mutual

/-- Modelled from the spec: `JSON.parse` on the cleaned text (§4.1 step
2d), as a minimal fuel-driven JSON reader — objects, arrays, strings,
integers and the three literals. -/
def parseValue : Nat → List Char → Option (Json × List Char)
  | 0, _ => none
  | fuel + 1, s =>
    match skipWs s with
    | [] => none
    | c :: cs =>
      if c = lbraceChar then parseObjFields fuel cs []
      else if c = '[' then parseArrElems fuel cs []
      else if c = '"' then
        match parseStringBody cs [] with
        | some (body, rest) => some (.str body, rest)
        | none => none
      else if beginsWith "true".data (c :: cs) then
        some (.bool true, (c :: cs).drop 4)
      else if beginsWith "false".data (c :: cs) then
        some (.bool false, (c :: cs).drop 5)
      else if beginsWith "null".data (c :: cs) then
        some (.null, (c :: cs).drop 4)
      else parseNumberToken (c :: cs)

/-- Members of a JSON object after the opening brace. -/
def parseObjFields (fuel : Nat) (s : List Char)
    (acc : List (List Char × Json)) : Option (Json × List Char) :=
  match fuel with
  | 0 => none
  | fuel + 1 =>
    match skipWs s with
    | [] => none
    | c :: cs =>
      if c = rbraceChar then some (.obj acc, cs)
      else if c = '"' then
        match parseStringBody cs [] with
        | none => none
        | some (key, afterKey) =>
          match skipWs afterKey with
          | ':' :: afterColon =>
            match parseValue fuel afterColon with
            | none => none
            | some (v, afterVal) =>
              match skipWs afterVal with
              | ',' :: afterComma =>
                parseObjFields fuel afterComma (acc ++ [(key, v)])
              | d :: ds =>
                if d = rbraceChar then some (.obj (acc ++ [(key, v)]), ds)
                else none
              | [] => none
          | _ => none
      else none

/-- Elements of a JSON array after the opening bracket. -/
def parseArrElems (fuel : Nat) (s : List Char)
    (acc : List Json) : Option (Json × List Char) :=
  match fuel with
  | 0 => none
  | fuel + 1 =>
    match skipWs s with
    | ']' :: cs => some (.arr acc, cs)
    | _ =>
      match parseValue fuel (skipWs s) with
      | none => none
      | some (v, afterVal) =>
        match skipWs afterVal with
        | ',' :: afterComma => parseArrElems fuel afterComma (acc ++ [v])
        | ']' :: rest => some (.arr (acc ++ [v]), rest)
        | _ => none

end

/-- Top-level parse: one JSON value followed by only whitespace. -/
def parseJson (s : List Char) : Option Json :=
  match parseValue (s.length + 1) s with
  | some (j, rest) => if (skipWs rest).isEmpty then some j else none
  | none => none

/-- Modelled from the spec: response cleanup before parsing (§4.1 step
2c) — trim surrounding whitespace, strip one leading Markdown code
fence with or without the `json` tag, strip one trailing fence, and
trim again. -/
def cleanJsonText (s : List Char) : List Char :=
  let t := trimChars s
  let t :=
    if beginsWith "```json".data t then t.drop 7
    else if beginsWith "```".data t then t.drop 3
    else t
  let t :=
    if beginsWith "```".data.reverse t.reverse then t.take (t.length - 3)
    else t
  trimChars t

/-- Cleanup followed by parsing, the recovery path of §4.1 steps 2c-2d. -/
def cleanParse (s : String) : Option Json :=
  parseJson (cleanJsonText s.data)

/-- Modelled from the spec: per-invocation configuration of the pipeline
(§3); the surrounding app passes the stored API key and model. -/
structure GenerationConfig where
  credential : String
  primaryModel : GeminiModel

/-- Modelled from the spec: the fixed ordered default fallback list of
the invocation pipeline (§3, §4.1 step 1; `geminiService.ts` is not
part of the source tree), Flash first as the settings code records
("Order: Flash (Default)"). -/
def defaultFallback : List GeminiModel :=
  [.ambitiousFlash, .pro, .flashLegacy]

/-- Modelled from the spec: step 1 of §4.1 — the caller's model first,
then every member of the fixed list different from it, in the fixed
order. -/
def buildAttemptSequence (primary : GeminiModel) : List GeminiModel :=
  primary :: defaultFallback.filter (fun m => m ≠ primary)

/-- Outcome of one backend request, as §4.1 step 2 distinguishes them:
a text payload, no text payload, or a thrown transport error carrying a
message. -/
inductive BackendResponse
  | noText
  | text (payload : String)
  | err (msg : String)

/-- The error taxonomy of §7. -/
inductive ClassifiedError
  | missingCredential
  | emptyResponse
  | malformedJson (model : GeminiModel)
  | networkFailure
  | invalidCredential
  | quotaExceeded
  | allModelsFailed
deriving DecidableEq

/-- The recognized categories of §4.1 step 3: credential, network and
quota failures are more specific than any generic per-attempt failure. -/
def isSpecificError : ClassifiedError → Bool
  | .networkFailure => true
  | .invalidCredential => true
  | .quotaExceeded => true
  | _ => false

/-- Modelled from the spec: classification of a thrown backend error by
pattern-matching its message (§7) — quota wording means quota limiting,
transport wording a network failure, key wording a rejected credential;
anything else stays a generic failure. -/
def classifyMessage (msg : String) : ClassifiedError :=
  if containsSub "quota".data msg.data then .quotaExceeded
  else if containsSub "fetch".data msg.data
      || containsSub "network".data msg.data then .networkFailure
  else if containsSub "API key".data msg.data
      || containsSub "API_KEY".data msg.data then .invalidCredential
  else .allModelsFailed

/-- Modelled from the spec: one model attempt (§4.1 steps 2a-2f) — an
absent payload is an empty response, a present payload is cleaned and
parsed (a parse failure is malformed JSON from that model), and a
thrown error is classified from its message. -/
def attemptModel (backend : GeminiModel → BackendResponse)
    (m : GeminiModel) : Except ClassifiedError Json :=
  match backend m with
  | .noText => .error .emptyResponse
  | .text payload =>
    match cleanParse payload with
    | some j => .ok j
    | none => .error (.malformedJson m)
  | .err msg => .error (classifyMessage msg)

/-- Modelled from the spec: the record of the most specific error
observed so far (§4.1 step 3) — the first recognized category is kept,
generic failures leave it unchanged. -/
def updateBest (best : Option ClassifiedError) (e : ClassifiedError) :
    Option ClassifiedError :=
  match best with
  | some b => some b
  | none => if isSpecificError e then some e else none

/-- Modelled from the spec: the sequential attempt loop of §4.1 step 2,
returning the result together with the models actually attempted, in
order: the loop stops at the first parsed success, otherwise records
the failure and moves on, and after exhausting the sequence returns the
most specific recorded error, or the generic terminal failure when none
was recorded. -/
def invokeAux (backend : GeminiModel → BackendResponse) :
    List GeminiModel → Option ClassifiedError →
      Except ClassifiedError Json × List GeminiModel
  | [], best => (.error (best.getD .allModelsFailed), [])
  | m :: rest, best =>
    match attemptModel backend m with
    | .ok j => (.ok j, [m])
    | .error e =>
      let r := invokeAux backend rest (updateBest best e)
      (r.1, m :: r.2)

/-- Modelled from the spec: the pipeline entry point `invoke` (§4.1) —
an empty credential fails fast with no attempt; otherwise the ordered
attempt sequence is tried. -/
def invoke (config : GenerationConfig)
    (backend : GeminiModel → BackendResponse) :
    Except ClassifiedError Json × List GeminiModel :=
  if config.credential = "" then (.error .missingCredential, [])
  else invokeAux backend (buildAttemptSequence config.primaryModel) none

/-- A backend on which every model attempt yields no text payload. -/
def backendAllEmpty : GeminiModel → BackendResponse := fun _ => .noText

/-- A backend on which the Pro attempt raises a quota error and the
other attempts yield no text payload. -/
def backendQuota : GeminiModel → BackendResponse
  | .pro => .err "You have exceeded your quota"
  | _ => .noText

/-- A backend on which only the Pro attempt yields parseable JSON. -/
def backendSecondOk : GeminiModel → BackendResponse
  | .pro => .text "\x7b\"a\":1\x7d"
  | _ => .noText

/-- A conversation-matching question with one gap marker and no
`questionCount`. -/
def qConvSample : Question :=
  ⟨"q1", "PART I", "conversation-matching", "(1)", none, none,
    none, none⟩

/-- A conversation-matching question whose `questionCount` of 5 disagrees
with its three gap markers. -/
def qMismatchSample : Question :=
  ⟨"q2", "PART I", "conversation-matching", "A (1) B (2) C (3)", none,
    none, some 5, none⟩

theorem takeDigits_append_eq (l : List Char) :
    (takeDigits l).1 ++ (takeDigits l).2 = l := by
  induction l with
  | nil => simp [takeDigits]
  | cons c cs ih =>
    by_cases h : isDigitChar c = true <;> simp [takeDigits, h, ih]

theorem takeDigits_snd_length_le (l : List Char) :
    (takeDigits l).2.length ≤ l.length := by
  induction l with
  | nil => simp [takeDigits]
  | cons c cs ih =>
    by_cases h : isDigitChar c = true
    · simp only [takeDigits, h, if_true, List.length_cons]
      omega
    · simp [takeDigits, h]

theorem takeDigits_fst_all_digits (l : List Char) :
    ∀ c ∈ (takeDigits l).1, isDigitChar c = true := by
  induction l with
  | nil => simp [takeDigits]
  | cons c cs ih =>
    by_cases h : isDigitChar c = true <;> simp [takeDigits, h]
    intro x hx
    exact ih x hx

theorem takeDigits_snd_head_not_digit (l : List Char) :
    ∀ c cs, (takeDigits l).2 = c :: cs → isDigitChar c = false := by
  induction l with
  | nil => simp [takeDigits]
  | cons a as ih =>
    by_cases h : isDigitChar a = true
    · simpa [takeDigits, h] using ih
    · intro c cs hc
      simp [takeDigits, h] at hc
      rw [← hc.1]
      simpa using h

/-- On a list that starts with a digit run followed by a non-digit,
`takeDigits` recovers exactly that split. -/
theorem takeDigits_of_digits_append (ds rest : List Char)
    (hds : ∀ c ∈ ds, isDigitChar c = true)
    (hrest : ∀ c cs, rest = c :: cs → isDigitChar c = false) :
    takeDigits (ds ++ rest) = (ds, rest) := by
  induction ds with
  | nil =>
    cases rest with
    | nil => simp [takeDigits]
    | cons c cs =>
      have := hrest c cs rfl
      simp [takeDigits, this]
  | cons d ds ih =>
    have hd : isDigitChar d = true := hds d (by simp)
    have ih' := ih (fun c hc => hds c (by simp [hc]))
    simp [takeDigits, hd, ih']

theorem countGaps_nil : countGaps [] = 0 := by
  rw [countGaps]

theorem countGaps_cons_not_lparen (c : Char) (cs : List Char)
    (h : c ≠ '(') : countGaps (c :: cs) = countGaps cs := by
  rw [countGaps]
  simp [h]

theorem countGaps_cons_match (cs ds rest : List Char) (d : Char)
    (h : takeDigits cs = (d :: ds, ')' :: rest)) :
    countGaps ('(' :: cs) = countGaps rest + 1 := by
  rw [countGaps]
  simp [h]

theorem countGaps_cons_nomatch (cs : List Char)
    (h : ¬((takeDigits cs).1 ≠ [] ∧ (takeDigits cs).2.head? = some ')')) :
    countGaps ('(' :: cs) = countGaps cs := by
  rw [countGaps]
  simp only [if_pos rfl]
  rw [if_neg h]
  simp

theorem gapNums_nil : gapNums [] = [] := by
  rw [gapNums]

theorem gapNums_cons_not_lparen (c : Char) (cs : List Char)
    (h : c ≠ '(') : gapNums (c :: cs) = gapNums cs := by
  rw [gapNums]
  simp [h]

theorem gapNums_cons_match (cs ds rest : List Char) (d : Char)
    (h : takeDigits cs = (d :: ds, ')' :: rest)) :
    gapNums ('(' :: cs) = digitsToNat (d :: ds) :: gapNums rest := by
  rw [gapNums]
  simp [h]

theorem gapNums_cons_nomatch (cs : List Char)
    (h : ¬((takeDigits cs).1 ≠ [] ∧ (takeDigits cs).2.head? = some ')')) :
    gapNums ('(' :: cs) = gapNums cs := by
  rw [gapNums]
  simp only [if_pos rfl]
  rw [if_neg h]
  simp

theorem renumberGaps_nil (n : Nat) : renumberGaps n [] = [] := by
  rw [renumberGaps]

theorem renumberGaps_cons_not_lparen (n : Nat) (c : Char) (cs : List Char)
    (h : c ≠ '(') : renumberGaps n (c :: cs) = c :: renumberGaps n cs := by
  rw [renumberGaps]
  simp [h]

theorem renumberGaps_cons_match (n : Nat) (cs ds rest : List Char) (d : Char)
    (h : takeDigits cs = (d :: ds, ')' :: rest)) :
    renumberGaps n ('(' :: cs) =
      '(' :: natDigits n ++ ')' :: renumberGaps (n + 1) rest := by
  rw [renumberGaps]
  simp [h]

theorem renumberGaps_cons_nomatch (n : Nat) (cs : List Char)
    (h : ¬((takeDigits cs).1 ≠ [] ∧ (takeDigits cs).2.head? = some ')')) :
    renumberGaps n ('(' :: cs) = '(' :: renumberGaps n cs := by
  rw [renumberGaps]
  simp only [if_pos rfl]
  rw [if_neg h]
  simp

theorem natDigits_all_digits (n : Nat) :
    ∀ c ∈ natDigits n, isDigitChar c = true := by
  induction n using Nat.strong_induction_on with
  | _ n ih =>
    rw [natDigits]
    by_cases h : n < 10
    · simp only [dif_pos h, List.mem_singleton]
      intro c hc
      subst hc
      interval_cases n <;> decide
    · simp only [dif_neg h, List.mem_append, List.mem_singleton]
      intro c hc
      rcases hc with hc | hc
      · exact ih (n / 10) (by omega) c hc
      · subst hc
        have h10 : n % 10 < 10 := Nat.mod_lt _ (by omega)
        interval_cases hm : n % 10 <;> decide

theorem natDigits_ne_nil (n : Nat) : natDigits n ≠ [] := by
  rw [natDigits]
  by_cases h : n < 10 <;> simp [h]

theorem rparen_not_digit : isDigitChar ')' = false := by decide

theorem digit_ne_lparen (c : Char) (h : isDigitChar c = true) : c ≠ '(' := by
  intro hc
  subst hc
  simp [isDigitChar] at h

theorem digitsToNat_append_singleton (ds : List Char) (c : Char) :
    digitsToNat (ds ++ [c]) = 10 * digitsToNat ds + (c.toNat - 48) := by
  simp [digitsToNat, List.foldl_append]

theorem toNat_ofNat_digit (d : Nat) (h : d < 10) :
    (Char.ofNat (48 + d)).toNat = 48 + d := by
  interval_cases d <;> decide

theorem digitsToNat_natDigits (n : Nat) : digitsToNat (natDigits n) = n := by
  induction n using Nat.strong_induction_on with
  | _ n ih =>
    rw [natDigits]
    by_cases h : n < 10
    · rw [dif_pos h]
      simp [digitsToNat, toNat_ofNat_digit n h]
    · rw [dif_neg h]
      rw [digitsToNat_append_singleton]
      rw [ih (n / 10) (by omega)]
      rw [toNat_ofNat_digit (n % 10) (Nat.mod_lt _ (by omega))]
      omega

theorem renumberGaps_cons_shape (n : Nat) (c : Char) (cs : List Char) :
    ∃ t, renumberGaps n (c :: cs) = c :: t := by
  rw [renumberGaps]
  by_cases hc : c = '('
  · subst hc
    by_cases hcond : (takeDigits cs).1 ≠ [] ∧ (takeDigits cs).2.head? = some ')'
    · refine ⟨natDigits n ++ ')' :: renumberGaps (n + 1) (takeDigits cs).2.tail, ?_⟩
      simp [hcond]
    · refine ⟨renumberGaps n cs, ?_⟩
      simp only [if_pos rfl]
      rw [if_neg hcond]
      simp
  · exact ⟨renumberGaps n cs, by simp [hc]⟩

theorem renumberGaps_digit_run (n : Nat) (ds r : List Char)
    (h : ∀ c ∈ ds, isDigitChar c = true) :
    renumberGaps n (ds ++ r) = ds ++ renumberGaps n r := by
  induction ds with
  | nil => simp
  | cons d ds ih =>
    have hd : isDigitChar d = true := h d (by simp)
    have hne := digit_ne_lparen d hd
    rw [List.cons_append, renumberGaps_cons_not_lparen n d _ hne]
    rw [ih (fun c hc => h c (by simp [hc]))]
    simp

theorem head_renumberGaps_not_digit (n : Nat) (r : List Char)
    (h : ∀ c cs, r = c :: cs → isDigitChar c = false) :
    ∀ c cs, renumberGaps n r = c :: cs → isDigitChar c = false := by
  cases r with
  | nil =>
    intro c cs hc
    rw [renumberGaps_nil] at hc
    exact absurd hc (by simp)
  | cons a as =>
    intro c cs hc
    obtain ⟨t, ht⟩ := renumberGaps_cons_shape n a as
    rw [ht] at hc
    have : c = a := by
      have := congrArg List.head? hc
      simpa using this.symm
    subst this
    exact h c as rfl

theorem nomatch_renumber (n : Nat) (cs : List Char)
    (h : ¬((takeDigits cs).1 ≠ [] ∧ (takeDigits cs).2.head? = some ')')) :
    ¬((takeDigits (renumberGaps n cs)).1 ≠ [] ∧
      (takeDigits (renumberGaps n cs)).2.head? = some ')') := by
  cases cs with
  | nil =>
    rw [renumberGaps_nil]
    simp [takeDigits]
  | cons a as =>
    by_cases ha : isDigitChar a = true
    · -- the digit run of `a :: as` is non-empty; the close paren must be absent
      have hsplit := takeDigits_append_eq (a :: as)
      have hfst : (takeDigits (a :: as)).1 = a :: (takeDigits as).1 := by
        simp [takeDigits, ha]
      have hnotr : (takeDigits (a :: as)).2.head? ≠ some ')' := by
        intro hr
        exact h ⟨by rw [hfst]; simp, hr⟩
      set p1 := (takeDigits (a :: as)).1 with hp1
      set p2 := (takeDigits (a :: as)).2 with hp2
      have hdig : ∀ c ∈ p1, isDigitChar c = true := takeDigits_fst_all_digits _
      have hhd2 : ∀ c cs', p2 = c :: cs' → isDigitChar c = false :=
        takeDigits_snd_head_not_digit _
      have hren : renumberGaps n (a :: as) = p1 ++ renumberGaps n p2 := by
        conv_lhs => rw [← hsplit]
        exact renumberGaps_digit_run n p1 p2 hdig
      have htd : takeDigits (p1 ++ renumberGaps n p2) = (p1, renumberGaps n p2) :=
        takeDigits_of_digits_append p1 _ hdig (head_renumberGaps_not_digit n p2 hhd2)
      rw [hren, htd]
      intro hcontra
      obtain ⟨-, hhd⟩ := hcontra
      cases hp : p2 with
      | nil =>
        rw [hp, renumberGaps_nil] at hhd
        simp at hhd
      | cons b bs =>
        obtain ⟨t, ht⟩ := renumberGaps_cons_shape n b bs
        rw [hp, ht] at hhd
        simp at hhd
        subst hhd
        exact hnotr (by rw [hp]; simp)
    · -- no digit after the head: the digit run is empty however we rewrite
      have h1 : takeDigits (a :: as) = ([], a :: as) := by
        simp [takeDigits, ha]
      obtain ⟨t, ht⟩ := renumberGaps_cons_shape n a as
      rw [ht]
      have h2 : takeDigits (a :: t) = ([], a :: t) := by
        simp [takeDigits, ha]
      rw [h2]
      simp

theorem gapNums_renumberGaps_aux :
    ∀ N l n, List.length l ≤ N →
      gapNums (renumberGaps n l) = List.range' n (countGaps l) := by
  intro N
  induction N with
  | zero =>
    intro l n h
    have hl : l = [] := List.eq_nil_of_length_eq_zero (Nat.le_zero.mp h)
    subst hl
    simp [renumberGaps_nil, gapNums_nil, countGaps_nil]
  | succ N ih =>
    intro l n h
    cases l with
    | nil => simp [renumberGaps_nil, gapNums_nil, countGaps_nil]
    | cons c cs =>
      have hcs : cs.length ≤ N := by
        simp only [List.length_cons] at h
        omega
      by_cases hc : c = '('
      · subst hc
        by_cases hcond : (takeDigits cs).1 ≠ [] ∧ (takeDigits cs).2.head? = some ')'
        · obtain ⟨hne, hhd⟩ := hcond
          obtain ⟨d, ds, h1⟩ : ∃ d ds, (takeDigits cs).1 = d :: ds := by
            cases h1 : (takeDigits cs).1 with
            | nil => exact absurd h1 hne
            | cons d ds => exact ⟨d, ds, rfl⟩
          obtain ⟨rest, h2⟩ : ∃ rest, (takeDigits cs).2 = ')' :: rest := by
            cases h2 : (takeDigits cs).2 with
            | nil => rw [h2] at hhd; simp at hhd
            | cons b bs =>
              rw [h2] at hhd
              simp at hhd
              subst hhd
              exact ⟨bs, rfl⟩
          have htd : takeDigits cs = (d :: ds, ')' :: rest) := by
            cases hp : takeDigits cs
            rw [hp] at h1 h2
            simp_all
          have hrest : rest.length ≤ N := by
            have := takeDigits_snd_length_le cs
            rw [htd] at this
            simp only [List.length_cons] at this
            omega
          rw [renumberGaps_cons_match n cs ds rest d htd]
          have htd2 : takeDigits (natDigits n ++ ')' :: renumberGaps (n + 1) rest)
              = (natDigits n, ')' :: renumberGaps (n + 1) rest) := by
            refine takeDigits_of_digits_append _ _ (natDigits_all_digits n) ?_
            intro a as ha
            have : a = ')' := by
              have := congrArg List.head? ha
              simpa using this.symm
            subst this
            exact rparen_not_digit
          obtain ⟨nd0, ndRest, hnd⟩ : ∃ a as, natDigits n = a :: as := by
            cases hx : natDigits n with
            | nil => exact absurd hx (natDigits_ne_nil n)
            | cons a as => exact ⟨a, as, rfl⟩
          have htd3 : takeDigits (natDigits n ++ ')' :: renumberGaps (n + 1) rest)
              = (nd0 :: ndRest, ')' :: renumberGaps (n + 1) rest) := by
            rw [htd2, hnd]
          rw [List.cons_append]
          rw [gapNums_cons_match _ _ _ _ htd3]
          rw [← hnd, digitsToNat_natDigits]
          rw [ih rest (n + 1) hrest]
          rw [countGaps_cons_match cs ds rest d htd]
          rfl
        · rw [renumberGaps_cons_nomatch n cs hcond]
          rw [gapNums_cons_nomatch _ (nomatch_renumber n cs hcond)]
          rw [countGaps_cons_nomatch cs hcond]
          exact ih cs n hcs
      · rw [renumberGaps_cons_not_lparen n c cs hc]
        rw [gapNums_cons_not_lparen c _ hc]
        rw [countGaps_cons_not_lparen c cs hc]
        exact ih cs n hcs

/-- Renumbering a content string from `n` rewrites its gap markers to the
consecutive numbers `n, n + 1, ...`, one per original marker. -/
theorem gapNums_renumberGaps (l : List Char) (n : Nat) :
    gapNums (renumberGaps n l) = List.range' n (countGaps l) :=
  gapNums_renumberGaps_aux l.length l n (le_refl _)

theorem answerNumberQuestions_eq_body (n : Nat) (qs : List Question) :
    answerNumberQuestions n qs = bodyNumberQuestions n qs := by
  induction qs generalizing n with
  | nil => rfl
  | cons q qs ih => simp [answerNumberQuestions, bodyNumberQuestions, ih]

theorem answerNumberSections_eq_body (n : Nat) (ss : List Section) :
    answerNumberSections n ss = bodyNumberSections n ss := by
  induction ss generalizing n with
  | nil => rfl
  | cons s ss ih =>
    simp [answerNumberSections, bodyNumberSections,
      answerNumberQuestions_eq_body, ih]

theorem updateBest_generic (best : Option ClassifiedError)
    (e : ClassifiedError) (h : isSpecificError e = false) :
    updateBest best e = best := by
  cases best with
  | some b => rfl
  | none => simp [updateBest, h]

theorem invokeAux_trace_leading (backend : GeminiModel → BackendResponse) :
    ∀ (l : List GeminiModel) (best : Option ClassifiedError),
      ∃ t, l = (invokeAux backend l best).2 ++ t := by
  intro l
  induction l with
  | nil => intro best; exact ⟨[], rfl⟩
  | cons m rest ih =>
    intro best
    cases hatt : attemptModel backend m with
    | ok j =>
      refine ⟨rest, ?_⟩
      simp [invokeAux, hatt]
    | error e =>
      obtain ⟨t, ht⟩ := ih (updateBest best e)
      refine ⟨t, ?_⟩
      simp only [invokeAux, hatt]
      rw [List.cons_append, ← ht]

theorem invokeAux_success (backend : GeminiModel → BackendResponse)
    (msucc : GeminiModel) (j : Json) (post : List GeminiModel)
    (hsucc : attemptModel backend msucc = .ok j) :
    ∀ (pre : List GeminiModel) (best : Option ClassifiedError),
      (∀ p ∈ pre, ∃ e, attemptModel backend p = .error e) →
      invokeAux backend (pre ++ msucc :: post) best = (.ok j, pre ++ [msucc]) := by
  intro pre
  induction pre with
  | nil =>
    intro best _
    simp [invokeAux, hsucc]
  | cons p ps ih =>
    intro best hpre
    obtain ⟨e, he⟩ := hpre p (by simp)
    have ih' := ih (updateBest best e) (fun x hx => hpre x (by simp [hx]))
    simp [invokeAux, he, ih']

theorem invokeAux_all_empty (backend : GeminiModel → BackendResponse)
    (hb : ∀ x, backend x = .noText) :
    ∀ l : List GeminiModel,
      (invokeAux backend l none).1 = .error .allModelsFailed := by
  intro l
  induction l with
  | nil => rfl
  | cons m rest ih =>
    have hatt : attemptModel backend m = .error .emptyResponse := by
      rw [attemptModel, hb m]
    have hupd : updateBest none ClassifiedError.emptyResponse = none := rfl
    simp [invokeAux, hatt, hupd, ih]

theorem classify_quota (s : String)
    (h : containsSub "quota".data s.data = true) :
    classifyMessage s = .quotaExceeded := by
  rw [classifyMessage, if_pos h]

theorem invokeAux_quota (backend : GeminiModel → BackendResponse) :
    ∀ (l : List GeminiModel) (best : Option ClassifiedError),
      (∀ x ∈ l, backend x = .noText ∨
        (∃ p, backend x = .text p ∧ cleanParse p = none) ∨
        (∃ s, backend x = .err s ∧ containsSub "quota".data s.data = true)) →
      (best = some .quotaExceeded ∨
        (best = none ∧ ∃ x ∈ l, ∃ s, backend x = .err s ∧
          containsSub "quota".data s.data = true)) →
      (invokeAux backend l best).1 = .error .quotaExceeded := by
  intro l
  induction l with
  | nil =>
    intro best hall hbest
    rcases hbest with hq | ⟨-, x, hx, -⟩
    · subst hq
      rfl
    · simp at hx
  | cons m rest ih =>
    intro best hall hbest
    rcases hall m (by simp) with hm | ⟨p, hp, hcp⟩ | ⟨s, hs, hq⟩
    · have hatt : attemptModel backend m = .error .emptyResponse := by
        rw [attemptModel, hm]
      have hupd : updateBest best ClassifiedError.emptyResponse = best :=
        updateBest_generic best _ rfl
      have hrec : (invokeAux backend rest best).1 = .error .quotaExceeded := by
        refine ih best (fun x hx => hall x (by simp [hx])) ?_
        rcases hbest with hq | ⟨hn, x, hx, s, hxs, hqq⟩
        · exact Or.inl hq
        · refine Or.inr ⟨hn, x, ?_, s, hxs, hqq⟩
          rcases List.mem_cons.mp hx with hxm | hxr
          · subst hxm
            rw [hm] at hxs
            cases hxs
          · exact hxr
      simp [invokeAux, hatt, hupd, hrec]
    · have hatt : attemptModel backend m = .error (.malformedJson m) := by
        simp [attemptModel, hp, hcp]
      have hupd : updateBest best (ClassifiedError.malformedJson m) = best :=
        updateBest_generic best _ rfl
      have hrec : (invokeAux backend rest best).1 = .error .quotaExceeded := by
        refine ih best (fun x hx => hall x (by simp [hx])) ?_
        rcases hbest with hq | ⟨hn, x, hx, s, hxs, hqq⟩
        · exact Or.inl hq
        · refine Or.inr ⟨hn, x, ?_, s, hxs, hqq⟩
          rcases List.mem_cons.mp hx with hxm | hxr
          · subst hxm
            rw [hp] at hxs
            cases hxs
          · exact hxr
      simp [invokeAux, hatt, hupd, hrec]
    · have hatt : attemptModel backend m = .error .quotaExceeded := by
        simp [attemptModel, hs, classify_quota s hq]
      have hupd : updateBest best ClassifiedError.quotaExceeded
          = some .quotaExceeded := by
        rcases hbest with hb | ⟨hb, -⟩ <;> subst hb <;> rfl
      have hrec : (invokeAux backend rest (some .quotaExceeded)).1
          = .error .quotaExceeded :=
        ih (some .quotaExceeded) (fun x hx => hall x (by simp [hx])) (Or.inl rfl)
      simp [invokeAux, hatt, hupd, hrec]

/-- C1: for every non-empty credential and every primary model M, the
pipeline's attempt sequence is M followed by the fixed default fallback
list with M removed in its original order, has no duplicate model id,
starts with M, and the models the pipeline actually attempts are always
a leading run of that sequence. -/
theorem attempt_sequence_spec (cred : String) (m : GeminiModel)
    (hcred : cred ≠ "") :
    buildAttemptSequence m = m :: defaultFallback.filter (fun x => x ≠ m) ∧
    (buildAttemptSequence m).Nodup ∧
    (buildAttemptSequence m).head? = some m ∧
    ∀ backend, ∃ t,
      buildAttemptSequence m = (invoke ⟨cred, m⟩ backend).2 ++ t := by
  refine ⟨rfl, ?_, rfl, ?_⟩
  · cases m <;> decide
  · intro backend
    simp only [invoke]
    rw [if_neg hcred]
    exact invokeAux_trace_leading backend (buildAttemptSequence m) none

theorem attempt_sequence_spec_witness :
    buildAttemptSequence GeminiModel.pro =
      GeminiModel.pro ::
        defaultFallback.filter (fun x => x ≠ GeminiModel.pro) ∧
    (buildAttemptSequence GeminiModel.pro).Nodup ∧
    (buildAttemptSequence GeminiModel.pro).head? = some GeminiModel.pro :=
  ⟨(attempt_sequence_spec "valid-key" .pro (by decide)).1,
   (attempt_sequence_spec "valid-key" .pro (by decide)).2.1,
   (attempt_sequence_spec "valid-key" .pro (by decide)).2.2.1⟩

/-- C2: the pipeline stops at the first model whose attempt parses: when
the attempt sequence splits as `pre ++ msucc :: post` with every model in
`pre` failing and `msucc` succeeding with `j`, the invocation returns
`j` having attempted exactly `pre ++ [msucc]` — no model of `post` is
attempted, and a first-attempt success means a single attempt. -/
theorem first_success_short_circuits (cred : String) (m : GeminiModel)
    (backend : GeminiModel → BackendResponse)
    (pre post : List GeminiModel) (msucc : GeminiModel) (j : Json)
    (hcred : cred ≠ "")
    (hseq : buildAttemptSequence m = pre ++ msucc :: post)
    (hpre : ∀ p ∈ pre, ∃ e, attemptModel backend p = .error e)
    (hsucc : attemptModel backend msucc = .ok j) :
    invoke ⟨cred, m⟩ backend = (.ok j, pre ++ [msucc]) := by
  simp only [invoke]
  rw [if_neg hcred, hseq]
  exact invokeAux_success backend msucc j post hsucc pre none hpre

theorem first_success_short_circuits_witness :
    invoke ⟨"valid-key", .ambitiousFlash⟩ backendSecondOk =
      (.ok (.obj [("a".data, .num 1)]),
        [GeminiModel.ambitiousFlash, GeminiModel.pro]) :=
  first_success_short_circuits "valid-key" .ambitiousFlash backendSecondOk
    [.ambitiousFlash] [.flashLegacy] .pro (.obj [("a".data, .num 1)])
    (by decide) (by decide)
    (by
      intro p hp
      simp only [List.mem_singleton] at hp
      subst hp
      exact ⟨.emptyResponse, rfl⟩)
    rfl

/-- C3: when every model attempt fails, the error that escapes is the
most specific recorded category — the generic terminal error when every
attempt was an empty response, and the quota category when one attempt
raised a quota-worded error while the others failed generically; a
message containing "quota" always classifies as quota exceeded. -/
theorem all_fail_error_classification (cred : String) (m : GeminiModel)
    (backend : GeminiModel → BackendResponse) (hcred : cred ≠ "") :
    ((∀ x, backend x = .noText) →
      (invoke ⟨cred, m⟩ backend).1 = .error .allModelsFailed) ∧
    ((∀ x ∈ buildAttemptSequence m,
        backend x = .noText ∨
        (∃ p, backend x = .text p ∧ cleanParse p = none) ∨
        (∃ s, backend x = .err s ∧ containsSub "quota".data s.data = true)) →
      (∃ x ∈ buildAttemptSequence m, ∃ s, backend x = .err s ∧
        containsSub "quota".data s.data = true) →
      (invoke ⟨cred, m⟩ backend).1 = .error .quotaExceeded) ∧
    (∀ s : String, containsSub "quota".data s.data = true →
      classifyMessage s = .quotaExceeded) := by
  refine ⟨?_, ?_, fun s h => classify_quota s h⟩
  · intro hb
    simp only [invoke]
    rw [if_neg hcred]
    exact invokeAux_all_empty backend hb (buildAttemptSequence m)
  · intro hall hex
    simp only [invoke]
    rw [if_neg hcred]
    exact invokeAux_quota backend (buildAttemptSequence m) none hall
      (Or.inr ⟨rfl, hex⟩)

theorem all_fail_error_classification_witness :
    (invoke ⟨"valid-key", .ambitiousFlash⟩ backendAllEmpty).1 =
      .error .allModelsFailed ∧
    (invoke ⟨"valid-key", .ambitiousFlash⟩ backendQuota).1 =
      .error .quotaExceeded ∧
    classifyMessage "You have exceeded your quota" = .quotaExceeded := by
  refine ⟨(all_fail_error_classification "valid-key" .ambitiousFlash
      backendAllEmpty (by decide)).1 (fun x => rfl), ?_, ?_⟩
  · refine (all_fail_error_classification "valid-key" .ambitiousFlash
      backendQuota (by decide)).2.1 ?_ ?_
    · intro x hx
      cases x with
      | ambitiousFlash => exact Or.inl rfl
      | pro =>
        exact Or.inr (Or.inr ⟨"You have exceeded your quota", rfl, by decide⟩)
      | flashLegacy => exact Or.inl rfl
    · exact ⟨.pro, by decide, "You have exceeded your quota", rfl, by decide⟩
  · exact (all_fail_error_classification "valid-key" .ambitiousFlash
      backendQuota (by decide)).2.2 "You have exceeded your quota" (by decide)

/-- C4: an invocation whose credential is the empty string fails
immediately with the missing-credential error and attempts no model. -/
theorem empty_credential_fails_fast (m : GeminiModel)
    (backend : GeminiModel → BackendResponse) :
    invoke ⟨"", m⟩ backend = (.error .missingCredential, []) := rfl

/-- C5: cleanup strips one fenced wrapper (with the json tag) so the
fenced payload parses to the object with field a mapped to 1, the same
unfenced payload parses to the same object, and cleanup leaves the
unfenced payload unchanged. -/
theorem cleanup_strips_fence :
    cleanParse "```json\n\x7b\"a\":1\x7d\n```" =
      some (.obj [("a".data, .num 1)]) ∧
    cleanParse "\x7b\"a\":1\x7d" = some (.obj [("a".data, .num 1)]) ∧
    cleanJsonText "\x7b\"a\":1\x7d".data = "\x7b\"a\":1\x7d".data :=
  ⟨rfl, rfl, rfl⟩

/-- C6: when the extracted text is empty or whitespace-only, the upload
handler never reaches the analysis call — with a key present it stops at
the user-facing error right after extraction, and without a key it stops
even earlier. -/
theorem empty_text_no_analysis (hk : Bool) (text : String)
    (h : trimChars text.data = []) :
    (∀ s, UploadAction.callAnalyze s ∉ handleFileUpload hk text) ∧
    (hk = true → handleFileUpload hk text =
      [.extractText,
        .setError "Không tìm thấy nội dung văn bản trong file."]) := by
  have hempty : (trimChars text.data).isEmpty = true := by
    rw [h]
    rfl
  cases hk with
  | false =>
    refine ⟨fun s => ?_, fun hcontra => by cases hcontra⟩
    simp [handleFileUpload]
  | true =>
    refine ⟨fun s => ?_, fun _ => ?_⟩
    · simp [handleFileUpload, hempty]
    · simp [handleFileUpload, hempty]

theorem empty_text_no_analysis_witness :
    UploadAction.callAnalyze "x" ∉ handleFileUpload true "  " ∧
    handleFileUpload true "  " =
      [.extractText,
        .setError "Không tìm thấy nội dung văn bản trong file."] :=
  ⟨(empty_text_no_analysis true "  " (by decide)).1 "x",
   (empty_text_no_analysis true "  " (by decide)).2 rfl⟩

/-- C7: the model id loaded at startup is validated against the known
model-id set — a stored member of the set is selected as is, while an
absent or unknown value falls back to the Flash default. -/
theorem stored_model_validation :
    (∀ s ∈ knownModelIds, loadStoredModel (some s) = s) ∧
    loadStoredModel none = modelId .ambitiousFlash ∧
    (∀ s, s ∉ knownModelIds →
      loadStoredModel (some s) = modelId .ambitiousFlash) := by
  refine ⟨?_, rfl, ?_⟩
  · intro s hs
    have hne : s ≠ "" := by
      simp only [knownModelIds, modelId, List.mem_cons,
        List.not_mem_nil, or_false] at hs
      rcases hs with h | h | h <;> subst h <;> decide
    simp [loadStoredModel, hne, hs]
  · intro s hs
    have hcond : ¬(s ≠ "" ∧ s ∈ knownModelIds) := by
      rintro ⟨-, hmem⟩
      exact hs hmem
    simp only [loadStoredModel]
    rw [if_neg hcond]

theorem stored_model_validation_witness :
    loadStoredModel (some (modelId .pro)) = modelId .pro ∧
    loadStoredModel (some "gpt-4") = modelId .ambitiousFlash :=
  ⟨stored_model_validation.1 (modelId .pro) (by decide),
   stored_model_validation.2.2 "gpt-4" (by decide)⟩

/-- C8: under the data-model invariant — a conversation-matching
question with at least one gap marker whose `questionCount`, when
present, equals the marker count — the numbering increment is exactly
the marker count; and whenever `questionCount` is present and greater
than one it takes precedence, mismatched or not. -/
theorem question_increment_matches_markers :
    (∀ q : Question, q.type = "conversation-matching" →
      1 ≤ countGapMarkers q.content →
      (∀ k, q.questionCount = some k → k = countGapMarkers q.content) →
      getQuestionIncrement q = countGapMarkers q.content) ∧
    (∀ (q : Question) (k : Nat), q.questionCount = some k → 1 < k →
      getQuestionIncrement q = k) := by
  constructor
  · intro q htype hge hqc
    have hconv : convIncrement q = countGapMarkers q.content := by
      rw [convIncrement, if_pos htype]
      have hne : countGapMarkers q.content ≠ 0 := by omega
      simp [hne]
    cases hq : q.questionCount with
    | none => simp [getQuestionIncrement, hq, hconv]
    | some k =>
      have hk := hqc k hq
      by_cases h1 : 1 < k
      · simp [getQuestionIncrement, hq, h1, hk, hconv]
      · simp [getQuestionIncrement, hq, h1, hconv]
  · intro q k hq h1
    simp [getQuestionIncrement, hq, h1]

theorem question_increment_matches_markers_witness :
    getQuestionIncrement qConvSample = countGapMarkers qConvSample.content ∧
    getQuestionIncrement qMismatchSample = 5 := by
  have heval : countGapMarkers qConvSample.content = 1 := by
    show countGaps "(1)".data = 1
    rw [show "(1)".data = ['(', '1', ')'] from rfl]
    rw [countGaps_cons_match ['1', ')'] [] [] '1' (by decide), countGaps_nil]
  refine ⟨question_increment_matches_markers.1 qConvSample rfl ?_ ?_,
    question_increment_matches_markers.2 qMismatchSample 5 rfl (by decide)⟩
  · rw [heval]
  · intro k hk
    cases hk

/-- C9: the exam body and the answer key assign identical start numbers
to every question, both folding the same increment over the same
traversal; and a conversation-matching question's gap markers are
renumbered consecutively from the question's own start number. -/
theorem body_and_answer_key_numbering_agree :
    (∀ e : ExamData, docxBodyStartNums e = docxAnswerStartNums e) ∧
    (∀ (content : List Char) (n : Nat),
      gapNums (renumberGaps n content) = List.range' n (countGaps content)) := by
  constructor
  · intro e
    rw [docxBodyStartNums, docxAnswerStartNums, answerNumberSections_eq_body]
  · exact fun content n => gapNums_renumberGaps content n

/-- C10: a credential counts as present only when it is longer than ten
characters, and an upload attempted with a key of at most ten characters
performs neither extraction nor analysis — it reports the error and
opens the settings dialog instead. -/
theorem has_key_guard :
    (∀ k : String, hasKeyOf k = true ↔ (k ≠ "" ∧ 10 < k.length)) ∧
    (∀ (k text : String), k.length ≤ 10 →
      handleFileUpload (hasKeyOf k) text =
        [.openSettings,
          .setError "Vui lòng nhập API Key trước khi sử dụng."] ∧
      UploadAction.extractText ∉ handleFileUpload (hasKeyOf k) text ∧
      ∀ s, UploadAction.callAnalyze s ∉ handleFileUpload (hasKeyOf k) text) := by
  constructor
  · intro k
    rw [hasKeyOf]
    simp only [Bool.and_eq_true, Bool.not_eq_true', decide_eq_true_eq]
    constructor
    · rintro ⟨h1, h2⟩
      refine ⟨?_, h2⟩
      intro hk
      subst hk
      exact absurd h1 (by decide)
    · rintro ⟨h1, h2⟩
      refine ⟨?_, h2⟩
      cases hk : k.isEmpty with
      | false => rfl
      | true =>
        exfalso
        exact h1 (by simpa [String.isEmpty_iff] using hk)
  · intro k text hlen
    have hk : hasKeyOf k = false := by
      rw [hasKeyOf]
      have hdec : decide (10 < k.length) = false := by
        simp
        omega
      simp [hdec]
    refine ⟨by simp [handleFileUpload, hk], by simp [handleFileUpload, hk],
      fun s => by simp [handleFileUpload, hk]⟩

theorem has_key_guard_witness :
    handleFileUpload (hasKeyOf "shortkey") "sample text" =
      [.openSettings,
        .setError "Vui lòng nhập API Key trước khi sử dụng."] ∧
    (hasKeyOf "a-long-enough-key" = true ↔
      ("a-long-enough-key" ≠ "" ∧ 10 < "a-long-enough-key".length)) :=
  ⟨(has_key_guard.2 "shortkey" "sample text" (by decide)).1,
   has_key_guard.1 "a-long-enough-key"⟩
